import Mathlib

/-!
Verification development for `ageh/tool-installer`.

The repository is a Go program that downloads GitHub release assets for a
configured set of tools, selects one asset per tool, verifies and extracts
the declared binaries into an installation directory, and tracks installed
versions in a cache.  The corpus contains several historical versions of the
program; the definitions below embed the concrete functions the claims cite
(`downloadTool` from `unnamed/part_002`, the extraction functions from
`unnamed/part_006`, `installTools` from `cmd/tool-installer/commands.go`),
with external effects (HTTP fetches, archive decoding, filesystem writes)
made explicit: fetches and decoders are function parameters, and filesystem
writes are returned as data.  Byte slices are `List Nat`.

The current version's regex-based asset selection, SHA-256 integrity
verification and kind-reporting extraction are absent from the corpus (only
their caller `application.go` remains); those are modelled from the spec and
are marked as such in their doc comments.
-/

/-- `Binary` from `unnamed/part_007` / `part_008` (`name`, `rename_to`);
JSON-only metadata is omitted. -/
structure Binary where
  name : String
  renameTo : String
  deriving Repr, DecidableEq

/-- `Tool` from `unnamed/part_008` (the 1.5-era struct referenced by
`downloadTool` in `part_002`, which reads `tool.AssetPrefix`).  The
display-only `description` field is kept; JSON tags are omitted. -/
structure Tool where
  binaries : List Binary
  owner : String
  repository : String
  linuxAsset : String
  windowsAsset : String
  assetPrefix : String
  description : String
  deriving Repr, DecidableEq

/-- `Asset` from `cmd/tool-installer/release.go`, restricted to the fields the
pipeline reads (`Name`, `Id`); the remaining fields are decoded JSON metadata
that no claim-relevant code touches.  `digest` is the optional content hash of
the spec's `AssetInfo` (the current release struct carrying it is absent from
the corpus); it is empty for the historical code paths that predate it. -/
structure Asset where
  name : String
  id : Int
  digest : String
  deriving Repr, DecidableEq

/-- `Release` from `cmd/tool-installer/release.go`, restricted to the fields
the pipeline reads (`TagName`, `Assets`). -/
structure Release where
  tagName : String
  assets : List Asset
  deriving Repr, DecidableEq

/-- `DownloadResult` from `unnamed/part_002`.  The Go zero value is
`{data: nil, assetName: "", tagName: "", updated: false}`. -/
structure DownloadResult where
  data : List Nat
  assetName : String
  tagName : String
  updated : Bool
  deriving Repr, DecidableEq

/-- One filesystem write performed by the extraction code: target path, file
content and permission bits (`0o755` everywhere in the source, via
`os.WriteFile(..., 0755)` or `os.Create` + `os.Chmod(..., 0755)`). -/
structure FsWrite where
  path : String
  content : List Nat
  perm : Nat
  deriving Repr, DecidableEq

/-- One decoded archive entry (tar header name / zip file name, plus its
bytes).  The Go standard library decoders (`archive/tar`, `archive/zip`,
`compress/gzip`) are external; the extraction loops are embedded over the
entry sequence they yield. -/
structure Entry where
  name : String
  content : List Nat
  deriving Repr, DecidableEq

/-- Go `strings.HasSuffix(s, suffix)`, computed on the character list so that
concrete instances reduce in the kernel. -/
def strEndsWith (s suf : String) : Bool := suf.data.isSuffixOf s.data

/-- Go `strings.HasPrefix(s, prefix)`, computed on the character list so that
concrete instances reduce in the kernel. -/
def strStartsWith (s pre : String) : Bool := pre.data.isPrefixOf s.data

/-- ASCII lower-casing of one character (the archive names and checksum
suffixes the program compares are ASCII). -/
def charLower (c : Char) : Char :=
  if c.isUpper then Char.ofNat (c.toNat + 32) else c

/-- Go `strings.ToLower` on ASCII strings. -/
def strLower (s : String) : String := String.mk (s.data.map charLower)

/-- Go map read `m[k]` for `map[string]string`: yields the zero value `""`
when the key is absent (used for `cache.Tools[name]` in
`cmd/tool-installer/commands.go`). -/
def lookupDefault (m : List (String × String)) (k : String) : String :=
  match m.find? (fun p => p.1 = k) with
  | some p => p.2
  | none => ""

/-- Go map assignment `m[k] = v` for an association-list model of
`map[string]string` (used by `Cache.add` in `cmd/tool-installer/cache.go`). -/
def mapSet (m : List (String × String)) (k v : String) : List (String × String) :=
  if m.any (fun p => p.1 = k) then
    m.map (fun p => if p.1 = k then (k, v) else p)
  else
    m ++ [(k, v)]

/-- Go map read with presence, `v, found := m[k]`: the observation used to
state which cache entries a batch changes. -/
def lookupOpt (m : List (String × String)) (k : String) : Option String :=
  (m.find? (fun p => p.1 = k)).map (fun p => p.2)

/-- Go `path.Base`: `""` gives `"."`; trailing slashes are dropped; if the
path is all slashes the result is `"/"`; otherwise the last component. -/
def pathBase (s : String) : String :=
  if s = "" then "." else
  let rev := s.data.reverse.dropWhile (fun c => c = '/')
  if rev = [] then "/" else
  String.mk ((rev.takeWhile (fun c => c ≠ '/')).reverse)

/-- Go `filepath.Join(dir, name)` for a non-empty clean `dir` and a relative
`name`, modelled as concatenation with a separator (the `Clean` step of the
real `Join` is the identity on the paths the program builds). -/
def joinPath (dir name : String) : String :=
  dir ++ "/" ++ name

/-- The asset download URL built at `unnamed/part_002:170`:
`fmt.Sprintf("https://api.github.com/repos/%s/%s/releases/assets/%d", ...)`. -/
def assetUrlFor (owner repository : String) (id : Int) : String :=
  "https://api.github.com/repos/" ++ owner ++ "/" ++ repository ++
    "/releases/assets/" ++ toString id

/-- The matching filter of `downloadTool` at `unnamed/part_002:156-161`:
keep assets whose name has the platform string as suffix and the tool's
`AssetPrefix` as prefix. -/
def matchingAssets (assets : List Asset) (asset : String) (assetPrefix : String) :
    List Asset :=
  assets.filter (fun a => strEndsWith a.name asset && strStartsWith a.name assetPrefix)

/-- `downloadTool` from `unnamed/part_002:130-182`.  `goos` stands for
`runtime.GOOS`; `downloadRelease` is the already-performed HTTP fetch of the
latest release (`part_002:132`), and `downloadAsset` maps an asset URL to the
fetched bytes (`part_002:172`).  Errors are the Go error strings. -/
def downloadTool (goos : String)
    (downloadRelease : Except String Release)
    (downloadAsset : String → Except String (List Nat))
    (tool : Tool) (currentVersion : String) : Except String DownloadResult :=
  match downloadRelease with
  | .error e => .error e
  | .ok release =>
    if currentVersion = release.tagName then
      .ok { data := [], assetName := "", tagName := "", updated := true }
    else
      match (match goos with
             | "linux" => some tool.linuxAsset
             | "windows" => some tool.windowsAsset
             | _ => none) with
      | none => .error ("the platform '" ++ goos ++ "' is not supported")
      | some asset =>
        if asset = "" then
          .error "no asset name provided for the current platform"
        else
          match matchingAssets release.assets asset tool.assetPrefix with
          | [] => .error "could not find a matching asset. Did you forget to include one in the config?"
          | [a] =>
            match downloadAsset (assetUrlFor tool.owner tool.repository a.id) with
            | .error e => .error e
            | .ok binaryContent =>
              .ok { data := binaryContent, assetName := a.name,
                    tagName := release.tagName, updated := false }
          | _ => .error "found two or more matching assets. Please be more specific"

example :
    downloadTool "linux" (.ok ⟨"v1", [⟨"x-linux.tar.gz", 7, ""⟩]⟩)
      (fun _ => .ok [1, 2]) ⟨[⟨"x", ""⟩], "o", "r", "linux.tar.gz", "", "", ""⟩ "v0"
    = .ok ⟨[1, 2], "x-linux.tar.gz", "v1", false⟩ := by rfl

example :
    downloadTool "linux" (.ok ⟨"v1", []⟩) (fun _ => .ok [])
      ⟨[⟨"x", ""⟩], "o", "r", "linux.tar.gz", "", "", ""⟩ "v1"
    = .ok ⟨[], "", "", true⟩ := by rfl

/-- `getRenameTarget` from `unnamed/part_006:19-37`: entries ending in `/`
yield `""` (skip); otherwise the entry's base filename is compared against
each binary's `Name` in order, and the first match yields `RenameTo` when set,
else the base filename itself.  No match yields `""`. -/
def getRenameTarget (fullName : String) (binaries : List Binary) : String :=
  if strEndsWith fullName "/" then "" else
  let fileName := pathBase fullName
  match binaries.find? (fun binary => fileName = binary.name) with
  | some binary => if binary.renameTo ≠ "" then binary.renameTo else fileName
  | none => ""

/-- The entry loop of `extractFilesTarGz` (`unnamed/part_006:97-130`) and of
`extractFilesZip` (`unnamed/part_006:50-78`), which have identical control
flow: walk entries in order; skip entries whose `getRenameTarget` is `""`;
otherwise write the entry's bytes to `Join(outputPath, fileName)` with
permissions `0755`, increment `extracted`, and break once
`extracted == toExtract`.  The writes performed are returned in order. -/
def extractLoop (binaries : List Binary) (outputPath : String) (toExtract : Nat) :
    List Entry → Nat → List FsWrite
  | [], _ => []
  | e :: rest, extracted =>
    let fileName := getRenameTarget e.name binaries
    if fileName = "" then
      extractLoop binaries outputPath toExtract rest extracted
    else
      let w : FsWrite := ⟨joinPath outputPath fileName, e.content, 0o755⟩
      if extracted + 1 = toExtract then [w]
      else w :: extractLoop binaries outputPath toExtract rest (extracted + 1)

/-- `extractFilesTarGz` from `unnamed/part_006:83-133`.  The gzip/tar decoding
done by `compress/gzip` and `archive/tar` is external; it is a parameter
`parse` from the raw bytes to the decoded entry sequence (failing like
`gzip.NewReader`/`tarReader.Next` do on corrupt input).  `toExtract` is
`len(binaries)` and `extracted` starts at `0`; the loop never fails after a
successful decode (missing binaries are not an error). -/
def extractFilesTarGz (parse : List Nat → Except String (List Entry))
    (rawData : List Nat) (binaries : List Binary) (outputPath : String) :
    Except String (List FsWrite) :=
  match parse rawData with
  | .error e => .error e
  | .ok entries => .ok (extractLoop binaries outputPath binaries.length entries 0)

/-- `extractFilesZip` from `unnamed/part_006:39-81`, with the `archive/zip`
decoding as a parameter, like `extractFilesTarGz`. -/
def extractFilesZip (parse : List Nat → Except String (List Entry))
    (rawData : List Nat) (binaries : List Binary) (outputPath : String) :
    Except String (List FsWrite) :=
  match parse rawData with
  | .error e => .error e
  | .ok entries => .ok (extractLoop binaries outputPath binaries.length entries 0)

/-- `extractFilesRaw` from `unnamed/part_006:135-163`: requires exactly one
declared binary; writes the downloaded bytes verbatim to
`Join(outputPath, effectiveName)` with permissions `0755`. -/
def extractFilesRaw (rawData : List Nat) (binaries : List Binary)
    (outputPath : String) : Except String (List FsWrite) :=
  if binaries.length ≠ 1 then
    .error "invalid number of binaries provided. Non-archive type assets can only be one binary"
  else
    match binaries with
    | [binary] =>
      let fileName := if binary.renameTo ≠ "" then binary.renameTo else binary.name
      .ok [⟨joinPath outputPath fileName, rawData, 0o755⟩]
    | _ => .error "invalid number of binaries provided. Non-archive type assets can only be one binary"

/-- `extractFiles` from `unnamed/part_006:165-174`: dispatch on the asset
name's suffix, `.tar.gz` before `.zip`, anything else to the raw-binary path
(after printing a warning). -/
def extractFiles (parseTarGz parseZip : List Nat → Except String (List Entry))
    (rawData : List Nat) (assetName : String) (binaries : List Binary)
    (outputPath : String) : Except String (List FsWrite) :=
  if strEndsWith assetName ".tar.gz" then
    extractFilesTarGz parseTarGz rawData binaries outputPath
  else if strEndsWith assetName ".zip" then
    extractFilesZip parseZip rawData binaries outputPath
  else
    extractFilesRaw rawData binaries outputPath

example :
    extractFilesRaw [9, 9] [⟨"foo-linux", "foo"⟩] "dir"
    = .ok [⟨"dir/foo", [9, 9], 0o755⟩] := by rfl

example :
    extractLoop [⟨"rg", "ripgrep"⟩] "d" 1 [⟨"bin/", [1]⟩, ⟨"bin/rg", [2]⟩, ⟨"x", [3]⟩] 0
    = [⟨"d/ripgrep", [2], 0o755⟩] := by rfl

/-- The per-tool outcome of the goroutine body in `installTools`
(`cmd/tool-installer/commands.go:230-255`): a download or extraction failure
is printed and nothing is sent on the results channel; an up-to-date result is
announced and skipped; a success sends `{name, installedVersion}` after the
extraction writes. -/
inductive ToolOutcome where
  | failed (msg : String)
  | upToDate
  | installed (version : String) (writes : List FsWrite)
  deriving Repr, DecidableEq

/-- `installFiles` from `cmd/tool-installer/commands.go:187-194`: runs
`extractFiles` and wraps its error; on success reports the release tag. -/
def installFiles (parseTarGz parseZip : List Nat → Except String (List Entry))
    (binaries : List Binary) (result : DownloadResult)
    (installationDirectory : String) : Except String (String × List FsWrite) :=
  match extractFiles parseTarGz parseZip result.data result.assetName binaries
      installationDirectory with
  | .error e => .error ("error during tool installation: " ++ e)
  | .ok writes => .ok (result.tagName, writes)

/-- The goroutine body of `installTools`
(`cmd/tool-installer/commands.go:232-255`) for one tool: read the cached
version (`cache.Tools[name]`, `""` when absent), run `downloadTool`, skip when
up to date, otherwise `installFiles`. -/
def installUnit (goos : String)
    (downloadRelease : String → String → Except String Release)
    (downloadAsset : String → Except String (List Nat))
    (parseTarGz parseZip : List Nat → Except String (List Entry))
    (cacheTools : List (String × String)) (installationDirectory : String)
    (name : String) (tool : Tool) : ToolOutcome :=
  let currentVersion := lookupDefault cacheTools name
  match downloadTool goos (downloadRelease tool.owner tool.repository)
      downloadAsset tool currentVersion with
  | .error e => .failed e
  | .ok result =>
    if result.updated then .upToDate
    else
      match installFiles parseTarGz parseZip tool.binaries result
          installationDirectory with
      | .error e => .failed e
      | .ok (installedVersion, writes) => .installed installedVersion writes

/-- Observable events of one `installTools` batch, in the order the
synchronization in `cmd/tool-installer/commands.go:226-272` enforces: the
per-tool units all complete (`wg.Wait`, channel close) before the single
`cache.writeCache()` call. -/
inductive BatchEvent where
  | toolProcessed (name : String) (outcome : ToolOutcome)
  | cacheWrite (cacheTools : List (String × String))
  deriving Repr, DecidableEq

/-- Is the event a cache persistence (`cache.writeCache()`)? -/
def isCacheWrite : BatchEvent → Bool
  | .cacheWrite _ => true
  | .toolProcessed _ _ => false

/-- The fan-out of `installTools` (`cmd/tool-installer/commands.go:230-256`):
one independent unit per tool of the already-selected `toInstall` list, each
computing its outcome from the shared read-only inputs only. -/
def batchOutcomes (goos : String)
    (downloadRelease : String → String → Except String Release)
    (downloadAsset : String → Except String (List Nat))
    (parseTarGz parseZip : List Nat → Except String (List Entry))
    (cacheTools : List (String × String)) (installationDirectory : String)
    (toInstall : List (String × Tool)) : List (String × ToolOutcome) :=
  toInstall.map (fun nt =>
    (nt.1, installUnit goos downloadRelease downloadAsset parseTarGz parseZip
      cacheTools installationDirectory nt.1 nt.2))

/-- The values received on the results channel
(`cmd/tool-installer/commands.go:254, 263`): one `{name, installedVersion}`
per successful install, nothing for failed or up-to-date tools. -/
def successResults (outcomes : List (String × ToolOutcome)) :
    List (String × String) :=
  outcomes.filterMap (fun no =>
    match no.2 with
    | .installed version _ => some (no.1, version)
    | _ => none)

/-- The cache-merge loop at `cmd/tool-installer/commands.go:263-265`:
`cache.add(result.Name, result.Installed)` for each received result. -/
def mergeCache (cacheTools : List (String × String))
    (results : List (String × String)) : List (String × String) :=
  results.foldl (fun c r => mapSet c r.1 r.2) cacheTools

/-- `installTools` from `cmd/tool-installer/commands.go:196-273`, for an
already-selected `toInstall` list (the name-filtering prelude at lines
209-224 and the up-front output-directory creation are not claim-relevant).
Every tool's unit runs independently; the results channel receives
`{name, installedVersion}` only from successful installs; after all units
finish, the received results are merged into the cache (`cache.add`) and the
cache is written exactly once.  Returns the event trace and the final cache
mapping. -/
def installTools (goos : String)
    (downloadRelease : String → String → Except String Release)
    (downloadAsset : String → Except String (List Nat))
    (parseTarGz parseZip : List Nat → Except String (List Entry))
    (cacheTools : List (String × String)) (installationDirectory : String)
    (toInstall : List (String × Tool)) :
    List BatchEvent × List (String × String) :=
  let outcomes := batchOutcomes goos downloadRelease downloadAsset parseTarGz
    parseZip cacheTools installationDirectory toInstall
  let finalCache := mergeCache cacheTools (successResults outcomes)
  (outcomes.map (fun no => BatchEvent.toolProcessed no.1 no.2)
     ++ [BatchEvent.cacheWrite finalCache],
   finalCache)

/-- Modelled from the spec: the current version's asset selection compiles the
platform pattern as a regular expression (`AssetSelector`, spec §4.1; the
implementation is absent from the corpus, which predates the regex selection
noted in the 2.0.0 changelog entry).  The modelled regex language has
literal characters, `.` (any one character), alternation `|`, grouping
`( )`, postfix `*`, and backslash escapes. -/
inductive Regex where
  | emp
  | eps
  | chr (c : Char)
  | dot
  | alt (r s : Regex)
  | cat (r s : Regex)
  | star (r : Regex)
  deriving Repr, DecidableEq

/-- Does the regex accept the empty word? -/
def Regex.nullable : Regex → Bool
  | .emp => false
  | .eps => true
  | .chr _ => false
  | .dot => false
  | .alt r s => r.nullable || s.nullable
  | .cat r s => r.nullable && s.nullable
  | .star _ => true

/-- Brzozowski derivative of a regex by one character. -/
def Regex.deriv : Regex → Char → Regex
  | .emp, _ => .emp
  | .eps, _ => .emp
  | .chr d, c => if c = d then .eps else .emp
  | .dot, _ => .eps
  | .alt r s, c => .alt (r.deriv c) (s.deriv c)
  | .cat r s, c =>
    if r.nullable then .alt (.cat (r.deriv c) s) (s.deriv c)
    else .cat (r.deriv c) s
  | .star r, c => .cat (r.deriv c) (.star r)

/-- Anchored (whole-word) matching via derivatives. -/
def Regex.matchList (r : Regex) : List Char → Bool
  | [] => r.nullable
  | c :: cs => (r.deriv c).matchList cs

/-- Does some prefix of the word match the regex? -/
def Regex.matchPrefixAt (r : Regex) : List Char → Bool
  | [] => r.nullable
  | c :: cs => r.nullable || (r.deriv c).matchPrefixAt cs

/-- Does some contiguous substring of the word match the regex?  This is the
unanchored semantics of Go's `Regexp.MatchString`. -/
def Regex.searchList (r : Regex) : List Char → Bool
  | [] => r.nullable
  | c :: cs => r.matchPrefixAt (c :: cs) || r.searchList cs

/-- Unanchored regex search on a string. -/
def regexSearch (r : Regex) (s : String) : Bool :=
  r.searchList s.data

/-- Word semantics of the modelled regexes. -/
inductive RLang : Regex → List Char → Prop where
  | eps : RLang .eps []
  | chr (c : Char) : RLang (.chr c) [c]
  | dot (c : Char) : RLang .dot [c]
  | altL {r s : Regex} {w : List Char} : RLang r w → RLang (.alt r s) w
  | altR {r s : Regex} {w : List Char} : RLang s w → RLang (.alt r s) w
  | cat {r s : Regex} {w₁ w₂ : List Char} :
      RLang r w₁ → RLang s w₂ → RLang (.cat r s) (w₁ ++ w₂)
  | starNil {r : Regex} : RLang (.star r) []
  | starCons {r : Regex} {w₁ w₂ : List Char} :
      RLang r w₁ → RLang (.star r) w₂ → RLang (.star r) (w₁ ++ w₂)

/-- Collapse a consumed-star postfix: `r**` etc. -/
def parseStars : Regex → List Char → Regex × List Char
  | r, '*' :: rest => parseStars (.star r) rest
  | r, cs => (r, cs)

mutual

/-- One atom of the modelled regex grammar: a group, `.`, an escape, or a
literal character.  `fuel` bounds the recursion depth. -/
def parseAtom : Nat → List Char → Option (Regex × List Char)
  | 0, _ => none
  | fuel + 1, cs =>
    match cs with
    | [] => none
    | '(' :: rest =>
      match parseAlt fuel rest with
      | some (r, ')' :: rest2) => some (r, rest2)
      | _ => none
    | '.' :: rest => some (.dot, rest)
    | '\\' :: c :: rest => some (.chr c, rest)
    | c :: rest =>
      if c = ')' ∨ c = '|' ∨ c = '*' ∨ c = '\\' ∨ c = '(' then none
      else some (.chr c, rest)

/-- A concatenation of starred atoms, ending at `)`/`|`/end of input. -/
def parseSeq : Nat → List Char → Option (Regex × List Char)
  | 0, _ => none
  | fuel + 1, cs =>
    match cs with
    | [] => some (.eps, [])
    | ')' :: rest => some (.eps, ')' :: rest)
    | '|' :: rest => some (.eps, '|' :: rest)
    | _ =>
      match parseAtom fuel cs with
      | none => none
      | some (r, rest) =>
        let sr := parseStars r rest
        match parseSeq fuel sr.2 with
        | none => none
        | some (r2, rest2) => some (.cat sr.1 r2, rest2)

/-- An alternation of sequences. -/
def parseAlt : Nat → List Char → Option (Regex × List Char)
  | 0, _ => none
  | fuel + 1, cs =>
    match parseSeq fuel cs with
    | none => none
    | some (r, '|' :: rest) =>
      match parseAlt fuel rest with
      | none => none
      | some (r2, rest2) => some (.alt r r2, rest2)
    | some (r, rest) => some (r, rest)

end

/-- Modelled from the spec: compiling the pattern string of a tool descriptor
into a regex; `none` is the spec's `InvalidPatternError` case of
`AssetSelector.selectAsset`. -/
def compile (pattern : String) : Option Regex :=
  match parseAlt (3 * pattern.length + 9) pattern.data with
  | some (r, []) => some r
  | _ => none

example : compile "a(b|c)*d" ≠ none := by decide
example : compile "a(b" = none := by decide
example : (compile "ab.d").map (fun r => regexSearch r "xxabcdyy") = some true := by decide

/-- The checksum/signature suffix heuristic of the spec's `AssetSelector`
(§4.1), case-insensitive. -/
def checksumSuffixes : List String :=
  [".sha256", ".sha1", ".sha512", ".sha256sum", ".md5", ".md5sum", ".checksums.txt"]

/-- Modelled from the spec: is the asset name a checksum/signature companion
file (case-insensitive suffix check)? -/
def isChecksumAsset (name : String) : Bool :=
  checksumSuffixes.any (fun suf => strEndsWith (strLower name) suf)

/-- The error cases of the spec's `AssetSelector.selectAsset` (§4.1, §7);
`ambiguousAsset` lists all matching names. -/
inductive SelectError where
  | invalidPattern
  | noMatchingAsset
  | ambiguousAsset (names : List String)
  deriving Repr, DecidableEq

/-- The candidate filter of the spec's `selectAsset`: drop checksum-suffixed
assets, keep those whose name the pattern matches anywhere (unanchored). -/
def selectCandidates (assets : List Asset) (re : Regex) : List Asset :=
  assets.filter (fun a => !isChecksumAsset a.name && regexSearch re a.name)

/-- Modelled from the spec: `AssetSelector.selectAsset` (§4.1).  The current
implementation (regex-based selection, 2.0.0 changelog) is absent from the
corpus.  Compiles the pattern (failure is `InvalidPatternError`), filters the
assets, and requires exactly one candidate. -/
def selectAsset (assets : List Asset) (pattern : String) : Except SelectError Asset :=
  match compile pattern with
  | none => .error .invalidPattern
  | some re =>
    match selectCandidates assets re with
    | [] => .error .noMatchingAsset
    | [a] => .ok a
    | l => .error (.ambiguousAsset (l.map (fun a => a.name)))

/-- The user-facing message of each selection error; the no-matching-asset
message tells the user to check the configuration (spec §4.1). -/
def selectErrorMessage : SelectError → String
  | .invalidPattern => "invalid asset pattern: the configured regular expression does not compile"
  | .noMatchingAsset => "could not find a matching asset. Did you forget to include one in the config?"
  | .ambiguousAsset names =>
    "found two or more matching assets. Please be more specific: " ++ String.intercalate ", " names

/-- The spec's `ArchiveKind` result of `ArchiveExtractor.extract` (§4.4):
which kind of asset was processed. -/
inductive AssetType where
  | Archive
  | RawBinary
  deriving Repr, DecidableEq

/-- Modelled from the spec: the current `extractFiles` returns which kind of
asset was processed (`Archive` or `RawBinary`) so the caller can report
installation provenance (§4.4; `application.go:217-228` consumes this result,
but the implementation is absent from the corpus).  Dispatch and per-format
behavior follow `unnamed/part_006`. -/
def extractFilesKind (parseTarGz parseZip : List Nat → Except String (List Entry))
    (rawData : List Nat) (assetName : String) (binaries : List Binary)
    (outputPath : String) : Except String (AssetType × List FsWrite) :=
  if strEndsWith assetName ".tar.gz" then
    match extractFilesTarGz parseTarGz rawData binaries outputPath with
    | .error e => .error e
    | .ok writes => .ok (.Archive, writes)
  else if strEndsWith assetName ".zip" then
    match extractFilesZip parseZip rawData binaries outputPath with
    | .error e => .error e
    | .ok writes => .ok (.Archive, writes)
  else
    match extractFilesRaw rawData binaries outputPath with
    | .error e => .error e
    | .ok writes => .ok (.RawBinary, writes)

/-- Modelled from the spec: `IntegrityVerifier.verify` (§4.3; the SHA-256
verification announced in the unreleased changelog entry is absent from the
corpus).  An empty expected digest skips verification; otherwise the SHA-256
hash of the data (the hash function itself is external, passed as
`sha256hex`) is formatted `sha256:<hex>` and compared case-sensitively. -/
def verifyIntegrity (sha256hex : List Nat → String) (data : List Nat)
    (expectedDigest : String) : Except String Unit :=
  if expectedDigest = "" then .ok ()
  else if "sha256:" ++ sha256hex data = expectedDigest then .ok ()
  else .error "asset integrity verification failed: digest mismatch - the download may be corrupted"

/-- The spec's `DownloadOutcome` (§3): terminal result of one tool's install
pipeline. -/
inductive Outcome where
  | alreadyUpToDate
  | failure (msg : String)
  | success (installedVersion : String) (kind : AssetType)
  deriving Repr, DecidableEq

/-- Modelled from the spec: `ToolInstaller.installOne` (§4.5), the current
install pipeline whose implementation is absent from the corpus (its caller
`App.installTools` in `application.go` remains).  Steps, in order: resolve
release, skip check, platform gate, asset selection, download, integrity
verification, extraction.  `extract` is the extraction step as a parameter so
that its (non-)invocation is observable. -/
def installOne (goos : String)
    (fetchLatestRelease : Except String Release)
    (fetchAssetBytes : Int → Except String (List Nat))
    (sha256hex : List Nat → String)
    (extract : List Nat → String → List Binary → String →
      Except String (AssetType × List FsWrite))
    (tool : Tool) (currentVersion : String) (destinationDir : String) : Outcome :=
  match fetchLatestRelease with
  | .error e => .failure e
  | .ok release =>
    if currentVersion = release.tagName then .alreadyUpToDate
    else
      match (match goos with
             | "linux" => some tool.linuxAsset
             | "windows" => some tool.windowsAsset
             | _ => none) with
      | none => .failure ("the platform '" ++ goos ++ "' is not supported")
      | some pattern =>
        if pattern = "" then
          .failure "no asset name provided for the current platform"
        else
          match selectAsset release.assets pattern with
          | .error e => .failure (selectErrorMessage e)
          | .ok asset =>
            match fetchAssetBytes asset.id with
            | .error e => .failure e
            | .ok data =>
              match verifyIntegrity sha256hex data asset.digest with
              | .error e => .failure e
              | .ok _ =>
                match extract data asset.name tool.binaries destinationDir with
                | .error e => .failure e
                | .ok (kind, _) => .success release.tagName kind

theorem emp_inv {w : List Char} (h : RLang .emp w) : False := by
  cases h

theorem eps_inv {w : List Char} (h : RLang .eps w) : w = [] := by
  cases h; rfl

theorem chr_inv {c : Char} {w : List Char} (h : RLang (.chr c) w) : w = [c] := by
  cases h; rfl

theorem dot_inv {w : List Char} (h : RLang .dot w) : ∃ c, w = [c] := by
  cases h with
  | dot c => exact ⟨c, rfl⟩

theorem alt_inv {r s : Regex} {w : List Char} (h : RLang (.alt r s) w) :
    RLang r w ∨ RLang s w := by
  cases h with
  | altL h => exact .inl h
  | altR h => exact .inr h

theorem cat_inv {r s : Regex} {w : List Char} (h : RLang (.cat r s) w) :
    ∃ w₁ w₂, w = w₁ ++ w₂ ∧ RLang r w₁ ∧ RLang s w₂ := by
  cases h with
  | cat h1 h2 => exact ⟨_, _, rfl, h1, h2⟩

theorem nullable_iff (r : Regex) : r.nullable = true ↔ RLang r [] := by
  induction r with
  | emp =>
    exact ⟨fun h => by simp [Regex.nullable] at h, fun h => (emp_inv h).elim⟩
  | eps =>
    exact ⟨fun _ => .eps, fun _ => rfl⟩
  | chr c =>
    constructor
    · intro h; simp [Regex.nullable] at h
    · intro h; simp at h ⊢; exact absurd (chr_inv h) (by simp)
  | dot =>
    constructor
    · intro h; simp [Regex.nullable] at h
    · intro h; obtain ⟨c, hc⟩ := dot_inv h; simp at hc
  | alt r s ihr ihs =>
    simp only [Regex.nullable, Bool.or_eq_true]
    constructor
    · rintro (h | h)
      · exact .altL (ihr.mp h)
      · exact .altR (ihs.mp h)
    · intro h
      rcases alt_inv h with h | h
      · exact .inl (ihr.mpr h)
      · exact .inr (ihs.mpr h)
  | cat r s ihr ihs =>
    simp only [Regex.nullable, Bool.and_eq_true]
    constructor
    · rintro ⟨h1, h2⟩
      simpa using RLang.cat (ihr.mp h1) (ihs.mp h2)
    · intro h
      obtain ⟨w₁, w₂, hw, h1, h2⟩ := cat_inv h
      obtain ⟨hw1, hw2⟩ := List.append_eq_nil.mp hw.symm
      subst hw1; subst hw2
      exact ⟨ihr.mpr h1, ihs.mpr h2⟩
  | star r _ =>
    exact ⟨fun _ => .starNil, fun _ => rfl⟩

theorem star_cons_inv {r : Regex} {c : Char} {w : List Char}
    (h : RLang (.star r) (c :: w)) :
    ∃ w₁ w₂, w = w₁ ++ w₂ ∧ RLang r (c :: w₁) ∧ RLang (.star r) w₂ := by
  generalize hq : Regex.star r = q at h
  generalize hu : c :: w = u at h
  induction h generalizing w with
  | eps => exact Regex.noConfusion hq
  | chr d => exact Regex.noConfusion hq
  | dot d => exact Regex.noConfusion hq
  | altL _ _ => exact Regex.noConfusion hq
  | altR _ _ => exact Regex.noConfusion hq
  | cat _ _ _ _ => exact Regex.noConfusion hq
  | starNil => exact absurd hu (by simp)
  | starCons h1 h2 ih1 ih2 =>
    rename_i r' w₁ w₂
    injection hq with hr
    subst hr
    cases w₁ with
    | nil =>
      simp only [List.nil_append] at hu
      exact ih2 rfl hu
    | cons c' w₁' =>
      simp only [List.cons_append] at hu
      injection hu with hc hw
      subst hc
      exact ⟨w₁', w₂, hw, h1, h2⟩

theorem deriv_iff (r : Regex) (c : Char) :
    ∀ w, RLang (r.deriv c) w ↔ RLang r (c :: w) := by
  induction r with
  | emp =>
    intro w
    exact ⟨fun h => (emp_inv h).elim, fun h => (emp_inv h).elim⟩
  | eps =>
    intro w
    constructor
    · intro h; exact (emp_inv h).elim
    · intro h; exact absurd (eps_inv h) (by simp)
  | chr d =>
    intro w
    by_cases hc : c = d
    · subst hc
      simp only [Regex.deriv, if_pos rfl]
      constructor
      · intro h; rw [eps_inv h]; exact .chr c
      · intro h
        have := chr_inv h
        injection this with _ hw
        rw [hw]; exact .eps
    · simp only [Regex.deriv, if_neg hc]
      constructor
      · intro h; exact (emp_inv h).elim
      · intro h
        have := chr_inv h
        injection this with h1 _
        exact absurd h1 hc
  | dot =>
    intro w
    constructor
    · intro h; rw [eps_inv h]; exact .dot c
    · intro h
      obtain ⟨d, hd⟩ := dot_inv h
      injection hd with _ hw
      rw [hw]; exact .eps
  | alt r s ihr ihs =>
    intro w
    constructor
    · intro h
      rcases alt_inv h with h | h
      · exact .altL ((ihr w).mp h)
      · exact .altR ((ihs w).mp h)
    · intro h
      rcases alt_inv h with h | h
      · exact .altL ((ihr w).mpr h)
      · exact .altR ((ihs w).mpr h)
  | cat r s ihr ihs =>
    intro w
    by_cases hn : r.nullable
    · simp only [Regex.deriv, if_pos hn]
      constructor
      · intro h
        rcases alt_inv h with h | h
        · obtain ⟨w₁, w₂, hw, h1, h2⟩ := cat_inv h
          subst hw
          simpa using RLang.cat ((ihr w₁).mp h1) h2
        · have hr0 : RLang r [] := (nullable_iff r).mp hn
          simpa using RLang.cat hr0 ((ihs w).mp h)
      · intro h
        obtain ⟨w₁, w₂, hw, h1, h2⟩ := cat_inv h
        cases w₁ with
        | nil =>
          simp only [List.nil_append] at hw
          subst hw
          exact .altR ((ihs w).mpr h2)
        | cons c' w₁' =>
          simp only [List.cons_append] at hw
          injection hw with hc hw'
          subst hc
          rw [hw']
          exact .altL (RLang.cat ((ihr w₁').mpr h1) h2)
    · simp only [Regex.deriv, if_neg hn]
      constructor
      · intro h
        obtain ⟨w₁, w₂, hw, h1, h2⟩ := cat_inv h
        subst hw
        simpa using RLang.cat ((ihr w₁).mp h1) h2
      · intro h
        obtain ⟨w₁, w₂, hw, h1, h2⟩ := cat_inv h
        cases w₁ with
        | nil =>
          exact absurd ((nullable_iff r).mpr h1) hn
        | cons c' w₁' =>
          simp only [List.cons_append] at hw
          injection hw with hc hw'
          subst hc
          rw [hw']
          exact RLang.cat ((ihr w₁').mpr h1) h2
  | star r ih =>
    intro w
    constructor
    · intro h
      obtain ⟨w₁, w₂, hw, h1, h2⟩ := cat_inv h
      subst hw
      simpa using RLang.starCons ((ih w₁).mp h1) h2
    · intro h
      obtain ⟨w₁, w₂, hw, h1, h2⟩ := star_cons_inv h
      rw [hw]
      exact RLang.cat ((ih w₁).mpr h1) h2

theorem matchList_iff (w : List Char) :
    ∀ r : Regex, r.matchList w = true ↔ RLang r w := by
  induction w with
  | nil =>
    intro r
    simpa [Regex.matchList] using nullable_iff r
  | cons c cs ih =>
    intro r
    rw [Regex.matchList, ih (r.deriv c)]
    exact deriv_iff r c cs

theorem matchPrefixAt_iff (w : List Char) :
    ∀ r : Regex, r.matchPrefixAt w = true ↔ ∃ p q, w = p ++ q ∧ RLang r p := by
  induction w with
  | nil =>
    intro r
    constructor
    · intro h
      exact ⟨[], [], rfl, (nullable_iff r).mp h⟩
    · rintro ⟨p, q, hpq, hp⟩
      have hpnil : p = [] := by cases p <;> simp_all
      subst hpnil
      exact (nullable_iff r).mpr hp
  | cons c cs ih =>
    intro r
    rw [Regex.matchPrefixAt, Bool.or_eq_true]
    constructor
    · rintro (h | h)
      · exact ⟨[], c :: cs, rfl, (nullable_iff r).mp h⟩
      · obtain ⟨p, q, hpq, hp⟩ := (ih _).mp h
        exact ⟨c :: p, q, by simp [hpq], (deriv_iff r c p).mp hp⟩
    · rintro ⟨p, q, hpq, hp⟩
      cases p with
      | nil =>
        exact .inl ((nullable_iff r).mpr hp)
      | cons c' p' =>
        simp only [List.cons_append] at hpq
        injection hpq with hc hcs
        subst hc
        exact .inr ((ih _).mpr ⟨p', q, hcs, (deriv_iff r c p').mpr hp⟩)

theorem searchList_iff (w : List Char) :
    ∀ r : Regex, r.searchList w = true ↔
      ∃ p m q, w = p ++ m ++ q ∧ RLang r m := by
  induction w with
  | nil =>
    intro r
    constructor
    · intro h
      exact ⟨[], [], [], rfl, (nullable_iff r).mp ((by simpa [Regex.searchList] using h))⟩
    · rintro ⟨p, m, q, hw, hm⟩
      have hmnil : m = [] :=
        (List.append_eq_nil.mp (List.append_eq_nil.mp hw.symm).1).2
      subst hmnil
      simpa [Regex.searchList] using (nullable_iff r).mpr hm
  | cons c cs ih =>
    intro r
    rw [Regex.searchList, Bool.or_eq_true]
    constructor
    · rintro (h | h)
      · obtain ⟨p, q, hpq, hp⟩ := (matchPrefixAt_iff _ r).mp h
        exact ⟨[], p, q, by simp [hpq], hp⟩
      · obtain ⟨p, m, q, hw, hm⟩ := (ih r).mp h
        exact ⟨c :: p, m, q, by simp [hw], hm⟩
    · rintro ⟨p, m, q, hw, hm⟩
      cases p with
      | nil =>
        refine .inl ((matchPrefixAt_iff _ r).mpr ⟨m, q, ?_, hm⟩)
        simpa using hw
      | cons c' p' =>
        simp only [List.cons_append] at hw
        injection hw with hc hcs
        subst hc
        exact .inr ((ih r).mpr ⟨p', m, q, hcs, hm⟩)

/-- Unanchored search finds exactly the strings with a matching contiguous
substring. -/
theorem regexSearch_iff (r : Regex) (s : String) :
    regexSearch r s = true ↔ ∃ p m q, s.data = p ++ m ++ q ∧ RLang r m :=
  searchList_iff s.data r

theorem find?_map_mapSet_hit (k v : String) :
    ∀ m : List (String × String), m.any (fun p => p.1 = k) = true →
      (m.map (fun p => if p.1 = k then (k, v) else p)).find?
          (fun p => p.1 = k) = some (k, v) := by
  intro m
  induction m with
  | nil => intro h; simp at h
  | cons a rest ih =>
    intro h
    rw [List.map_cons]
    by_cases ha : a.1 = k
    · rw [if_pos ha]
      exact List.find?_cons_of_pos _ (by simp)
    · rw [if_neg ha]
      have hrest : rest.any (fun p => p.1 = k) = true := by
        simpa [List.any_cons, ha] using h
      rw [List.find?_cons_of_neg _ (by simp [ha]), ih hrest]

theorem find?_map_mapSet_miss (k v k' : String) (hne : k' ≠ k) :
    ∀ m : List (String × String),
      (m.map (fun p => if p.1 = k then (k, v) else p)).find?
          (fun p => p.1 = k')
        = m.find? (fun p => p.1 = k') := by
  intro m
  have hkk : ¬ (k = k') := fun h => hne h.symm
  induction m with
  | nil => rfl
  | cons a rest ih =>
    rw [List.map_cons]
    by_cases ha : a.1 = k
    · rw [if_pos ha]
      have h2 : ¬ (a.1 = k') := by
        rw [ha]; exact hkk
      rw [List.find?_cons_of_neg _ (by simp [hkk]),
          List.find?_cons_of_neg _ (by simp [h2]), ih]
    · rw [if_neg ha]
      by_cases ha' : a.1 = k'
      · rw [List.find?_cons_of_pos _ (by simp [ha']),
            List.find?_cons_of_pos _ (by simp [ha'])]
      · rw [List.find?_cons_of_neg _ (by simp [ha']),
            List.find?_cons_of_neg _ (by simp [ha']), ih]

theorem lookupOpt_mapSet_same (m : List (String × String)) (k v : String) :
    lookupOpt (mapSet m k v) k = some v := by
  rw [mapSet]
  by_cases h : m.any (fun p => p.1 = k)
  · rw [if_pos h, lookupOpt, find?_map_mapSet_hit k v m h]
    rfl
  · rw [if_neg h, lookupOpt, List.find?_append]
    have hnone : m.find? (fun p => p.1 = k) = none := by
      rw [List.find?_eq_none]
      intro x hx
      by_cases hxk : x.1 = k
      · exact absurd (List.any_eq_true.mpr ⟨x, hx, by simp [hxk]⟩) h
      · simp [hxk]
    rw [hnone]
    have hone : List.find? (fun p => p.1 = k) [(k, v)] = some (k, v) :=
      List.find?_cons_of_pos _ (by simp)
    rw [Option.none_or, hone]
    rfl

theorem lookupOpt_mapSet_other (m : List (String × String)) (k v k' : String)
    (hne : k' ≠ k) :
    lookupOpt (mapSet m k v) k' = lookupOpt m k' := by
  rw [mapSet]
  by_cases h : m.any (fun p => p.1 = k)
  · rw [if_pos h, lookupOpt, find?_map_mapSet_miss k v k' hne m]
    rfl
  · rw [if_neg h, lookupOpt, List.find?_append]
    have htail : List.find? (fun p => p.1 = k') [(k, v)] = none := by
      rw [List.find?_eq_none]
      intro x hx
      rw [List.mem_singleton.mp hx]
      simp
      exact fun hc => hne hc.symm
    rw [htail, lookupOpt]
    cases m.find? (fun p => p.1 = k') <;> rfl

theorem lookupOpt_mergeCache_not_mem (results : List (String × String))
    (k : String) (h : ∀ r ∈ results, r.1 ≠ k) :
    ∀ m, lookupOpt (mergeCache m results) k = lookupOpt m k := by
  induction results with
  | nil => intro m; rfl
  | cons r rest ih =>
    intro m
    have hr : r.1 ≠ k := h r (List.mem_cons_self r rest)
    have hrest : ∀ x ∈ rest, x.1 ≠ k :=
      fun x hx => h x (List.mem_cons_of_mem r hx)
    calc lookupOpt (mergeCache m (r :: rest)) k
        = lookupOpt (mergeCache (mapSet m r.1 r.2) rest) k := rfl
      _ = lookupOpt (mapSet m r.1 r.2) k := ih hrest (mapSet m r.1 r.2)
      _ = lookupOpt m k :=
          lookupOpt_mapSet_other m r.1 r.2 k (fun hkr => hr hkr.symm)

theorem lookupOpt_mergeCache_mem (results : List (String × String))
    (k v : String) (hnd : (results.map Prod.fst).Nodup)
    (hmem : (k, v) ∈ results) :
    ∀ m, lookupOpt (mergeCache m results) k = some v := by
  induction results with
  | nil => cases hmem
  | cons r rest ih =>
    intro m
    rcases List.mem_cons.mp hmem with heq | hmem'
    · subst heq
      have hnk : ∀ x ∈ rest, x.1 ≠ k := by
        intro x hx hxk
        have hkmem : k ∈ rest.map Prod.fst := by
          rw [← hxk]
          exact List.mem_map_of_mem Prod.fst hx
        exact (List.nodup_cons.mp hnd).1 hkmem
      calc lookupOpt (mergeCache m ((k, v) :: rest)) k
          = lookupOpt (mergeCache (mapSet m k v) rest) k := rfl
        _ = lookupOpt (mapSet m k v) k :=
            lookupOpt_mergeCache_not_mem rest k hnk (mapSet m k v)
        _ = some v := lookupOpt_mapSet_same m k v
    · exact ih (List.nodup_cons.mp hnd).2 hmem' (mapSet m r.1 r.2)

theorem mem_successResults (outcomes : List (String × ToolOutcome))
    (k v : String) :
    (k, v) ∈ successResults outcomes ↔
      ∃ w, (k, ToolOutcome.installed v w) ∈ outcomes := by
  rw [successResults, List.mem_filterMap]
  constructor
  · rintro ⟨⟨n, o⟩, hmem, hf⟩
    cases o with
    | failed msg => simp at hf
    | upToDate => simp at hf
    | installed version w =>
      simp only [Option.some.injEq, Prod.mk.injEq] at hf
      obtain ⟨h1, h2⟩ := hf
      subst h1; subst h2
      exact ⟨w, hmem⟩
  · rintro ⟨w, hmem⟩
    exact ⟨(k, .installed v w), hmem, rfl⟩

theorem successResults_names_sublist (outcomes : List (String × ToolOutcome)) :
    ((successResults outcomes).map Prod.fst).Sublist (outcomes.map Prod.fst) := by
  induction outcomes with
  | nil => simp [successResults]
  | cons o rest ih =>
    have ih' : ((successResults rest).map Prod.fst).Sublist
        (rest.map Prod.fst) := ih
    cases ho : o.2 with
    | failed msg =>
      have hstep : successResults (o :: rest) = successResults rest := by
        simp [successResults, List.filterMap_cons, ho]
      rw [hstep, List.map_cons]
      exact List.Sublist.cons o.1 ih'
    | upToDate =>
      have hstep : successResults (o :: rest) = successResults rest := by
        simp [successResults, List.filterMap_cons, ho]
      rw [hstep, List.map_cons]
      exact List.Sublist.cons o.1 ih'
    | installed version w =>
      have hstep : successResults (o :: rest)
          = (o.1, version) :: successResults rest := by
        simp [successResults, List.filterMap_cons, ho]
      rw [hstep, List.map_cons, List.map_cons]
      exact List.Sublist.cons₂ o.1 ih'

theorem batchOutcomes_names (goos : String)
    (downloadRelease : String → String → Except String Release)
    (downloadAsset : String → Except String (List Nat))
    (parseTarGz parseZip : List Nat → Except String (List Entry))
    (cacheTools : List (String × String)) (dir : String)
    (toInstall : List (String × Tool)) :
    (batchOutcomes goos downloadRelease downloadAsset parseTarGz parseZip
        cacheTools dir toInstall).map Prod.fst = toInstall.map Prod.fst := by
  rw [batchOutcomes, List.map_map]
  rfl

/-- C1: for every release asset list and non-empty platform pattern, the
matching step of `downloadTool` (`unnamed/part_002:156-168`) proceeds with the
single matching asset when exactly one asset matches, fails with the
no-matching-asset error (telling the user to check the configuration) when
zero match, and fails with the ambiguous-asset error when two or more
match. -/
theorem downloadTool_selection_trichotomy
    (release : Release) (downloadAsset : String → Except String (List Nat))
    (tool : Tool) (currentVersion goos pattern : String)
    (hplat : (goos = "linux" ∧ pattern = tool.linuxAsset) ∨
             (goos = "windows" ∧ pattern = tool.windowsAsset))
    (hver : currentVersion ≠ release.tagName)
    (hpat : pattern ≠ "") :
    (matchingAssets release.assets pattern tool.assetPrefix = [] →
      downloadTool goos (.ok release) downloadAsset tool currentVersion =
        .error "could not find a matching asset. Did you forget to include one in the config?") ∧
    (∀ a, matchingAssets release.assets pattern tool.assetPrefix = [a] →
      downloadTool goos (.ok release) downloadAsset tool currentVersion =
        match downloadAsset (assetUrlFor tool.owner tool.repository a.id) with
        | .error e => .error e
        | .ok d => .ok ⟨d, a.name, release.tagName, false⟩) ∧
    (∀ a b rest,
      matchingAssets release.assets pattern tool.assetPrefix = a :: b :: rest →
      downloadTool goos (.ok release) downloadAsset tool currentVersion =
        .error "found two or more matching assets. Please be more specific") := by
  rcases hplat with ⟨hg, hp⟩ | ⟨hg, hp⟩ <;> subst hg <;> subst hp <;>
    refine ⟨fun h => ?_, fun a h => ?_, fun a b rest h => ?_⟩ <;>
    simp [downloadTool, hver, hpat, h]

theorem downloadTool_selection_trichotomy_witness :
    downloadTool "linux"
        (.ok ⟨"v2", [⟨"t-linux.tar.gz", 3, ""⟩]⟩) (fun _ => .ok [5])
        ⟨[⟨"t", ""⟩], "o", "r", "linux.tar.gz", "", "", ""⟩ "v1"
      = .ok ⟨[5], "t-linux.tar.gz", "v2", false⟩ :=
  (downloadTool_selection_trichotomy
    ⟨"v2", [⟨"t-linux.tar.gz", 3, ""⟩]⟩ (fun _ => .ok [5])
    ⟨[⟨"t", ""⟩], "o", "r", "linux.tar.gz", "", "", ""⟩ "v1" "linux"
    "linux.tar.gz" (Or.inl ⟨rfl, rfl⟩) (by decide) (by decide)).2.1
    ⟨"t-linux.tar.gz", 3, ""⟩ (by rfl)

/-- C2 (amended): when the cached current version equals the resolved
release's tag, the per-tool unit (`unnamed/part_002:137-140` plus
`cmd/tool-installer/commands.go:235-246`) terminates up-to-date and its result
does not depend on the asset-download or extraction effects (no asset
selection, download, or disk write happens after the release fetch); and an
`.ok` result of `downloadTool` is the up-to-date skip exactly when the cached
version equals the tag — so a never-installed tool (empty cached version)
proceeds to a full install attempt whenever the release tag is non-empty. -/
theorem installUnit_up_to_date_skip
    (goos : String)
    (downloadRelease : String → String → Except String Release)
    (downloadAsset : String → Except String (List Nat))
    (parseTarGz parseZip : List Nat → Except String (List Entry))
    (cacheTools : List (String × String)) (dir name : String) (tool : Tool)
    (release : Release)
    (hrel : downloadRelease tool.owner tool.repository = .ok release) :
    (lookupDefault cacheTools name = release.tagName →
      ∀ downloadAsset₂ parseTarGz₂ parseZip₂,
        installUnit goos downloadRelease downloadAsset₂ parseTarGz₂ parseZip₂
            cacheTools dir name tool = .upToDate) ∧
    (∀ r, downloadTool goos (downloadRelease tool.owner tool.repository)
          downloadAsset tool (lookupDefault cacheTools name) = .ok r →
      (r.updated = true ↔ lookupDefault cacheTools name = release.tagName)) := by
  constructor
  · intro hv downloadAsset₂ parseTarGz₂ parseZip₂
    simp [installUnit, downloadTool, hrel, hv]
  · intro r hr
    rw [hrel] at hr
    simp only [downloadTool] at hr
    by_cases hv : lookupDefault cacheTools name = release.tagName
    · rw [if_pos hv] at hr
      simp only [Except.ok.injEq] at hr
      rw [← hr]
      simp [hv]
    · rw [if_neg hv] at hr
      constructor
      · intro hup
        exfalso
        split at hr
        · simp at hr
        · split at hr
          · simp at hr
          · split at hr
            · simp at hr
            · split at hr
              · simp at hr
              · simp only [Except.ok.injEq] at hr
                rw [← hr] at hup
                simp at hup
            · simp at hr
      · intro h
        exact absurd h hv

theorem installUnit_up_to_date_skip_witness :
    installUnit "linux" (fun _ _ => .ok ⟨"v1", []⟩) (fun _ => .error "net")
        (fun _ => .error "gz") (fun _ => .error "zip") [("bat", "v1")] "d"
        "bat" ⟨[⟨"bat", ""⟩], "sharkdp", "bat", "linux.tar.gz", "", "", ""⟩
      = .upToDate :=
  (installUnit_up_to_date_skip "linux" (fun _ _ => .ok ⟨"v1", []⟩)
    (fun _ => .error "net") (fun _ => .error "gz") (fun _ => .error "zip")
    [("bat", "v1")] "d" "bat"
    ⟨[⟨"bat", ""⟩], "sharkdp", "bat", "linux.tar.gz", "", "", ""⟩
    ⟨"v1", []⟩ rfl).1 rfl (fun _ => .error "net")
    (fun _ => .error "gz") (fun _ => .error "zip")

/-- C2 counterexample: `downloadTool` compares with plain string equality, so
when the resolved release's tag is the empty string, a never-installed tool
(empty cached version, here an empty cache) "matches" it and the unit reports
up-to-date instead of proceeding to a full install attempt — refuting the
claim that an empty currentVersion never matches any tag. -/
theorem installUnit_empty_tag_matches_counterexample :
    lookupDefault [] "bat" = "" ∧
    installUnit "linux" (fun _ _ => .ok ⟨"", [⟨"bat-linux.tar.gz", 1, ""⟩]⟩)
        (fun _ => .error "net") (fun _ => .error "gz") (fun _ => .error "zip")
        [] "d" "bat"
        ⟨[⟨"bat", ""⟩], "sharkdp", "bat", "linux.tar.gz", "", "", ""⟩
      = .upToDate :=
  ⟨rfl, rfl⟩

/-- C3: whenever the downloaded asset's provided digest is non-empty and
differs from the recomputed SHA-256 content hash (formatted `sha256:<hex>`),
the pipeline fails with the integrity error, and the result is the same for
every possible extraction function - extraction is never invoked on those
bytes (spec §4.3, §4.5 steps 6-7; modelled from the spec, the current
implementation being absent from the corpus). -/
theorem installOne_integrity_gate
    (goos : String) (release : Release)
    (fetchAssetBytes : Int → Except String (List Nat))
    (sha256hex : List Nat → String)
    (tool : Tool) (currentVersion destinationDir pattern : String)
    (asset : Asset) (data : List Nat)
    (hver : currentVersion ≠ release.tagName)
    (hplat : (goos = "linux" ∧ pattern = tool.linuxAsset) ∨
             (goos = "windows" ∧ pattern = tool.windowsAsset))
    (hpat : pattern ≠ "")
    (hsel : selectAsset release.assets pattern = .ok asset)
    (hfetch : fetchAssetBytes asset.id = .ok data)
    (hdig : asset.digest ≠ "")
    (hmis : "sha256:" ++ sha256hex data ≠ asset.digest) :
    ∀ extract,
      installOne goos (.ok release) fetchAssetBytes sha256hex extract tool
          currentVersion destinationDir =
        .failure "asset integrity verification failed: digest mismatch - the download may be corrupted" := by
  intro extract
  rcases hplat with ⟨hg, hp⟩ | ⟨hg, hp⟩ <;> subst hg <;> subst hp <;>
    simp [installOne, hver, hpat, hsel, hfetch, verifyIntegrity, hdig, hmis]

theorem installOne_integrity_gate_witness :
    installOne "linux" (.ok ⟨"v2", [⟨"tool-linux.tar.gz", 1, "sha256:aaaa"⟩]⟩)
        (fun _ => .ok [7, 7]) (fun _ => "bbbb")
        (fun _ _ _ _ => .ok (.Archive, []))
        ⟨[⟨"tool", ""⟩], "o", "r", "linux", "", "", ""⟩ "v1" "d"
      = .failure "asset integrity verification failed: digest mismatch - the download may be corrupted" :=
  installOne_integrity_gate "linux" ⟨"v2", [⟨"tool-linux.tar.gz", 1, "sha256:aaaa"⟩]⟩
    (fun _ => .ok [7, 7]) (fun _ => "bbbb")
    ⟨[⟨"tool", ""⟩], "o", "r", "linux", "", "", ""⟩ "v1" "d" "linux"
    ⟨"tool-linux.tar.gz", 1, "sha256:aaaa"⟩ [7, 7]
    (by decide) (Or.inl ⟨rfl, rfl⟩) (by decide) (by rfl) rfl (by decide)
    (by decide) (fun _ _ _ _ => .ok (.Archive, []))

/-- C4: asset selection compiles the platform pattern as a regular
expression, failing with the invalid-pattern error when it does not compile,
and otherwise keeps exactly the non-checksum assets whose name contains a
substring in the pattern's language (unanchored matching anywhere in the
name); a uniquely selected asset is the single such candidate (spec §4.1;
modelled from the spec, the current implementation being absent from the
corpus). -/
theorem selectAsset_regex_semantics (assets : List Asset) (pattern : String) :
    (compile pattern = none →
      selectAsset assets pattern = .error .invalidPattern) ∧
    (∀ re, compile pattern = some re →
      ∀ a, a ∈ selectCandidates assets re ↔
        a ∈ assets ∧ isChecksumAsset a.name = false ∧
          ∃ p m q, a.name.data = p ++ m ++ q ∧ RLang re m) ∧
    (∀ re a, compile pattern = some re → selectAsset assets pattern = .ok a →
      selectCandidates assets re = [a]) := by
  refine ⟨fun h => ?_, fun re h a => ?_, fun re a h hsel => ?_⟩
  · simp [selectAsset, h]
  · rw [selectCandidates, List.mem_filter]
    simp only [Bool.and_eq_true, Bool.not_eq_true']
    rw [regexSearch_iff]
  · simp only [selectAsset, h] at hsel
    rcases hc : selectCandidates assets re with _ | ⟨x, _ | ⟨y, rest⟩⟩ <;>
      rw [hc] at hsel
    · simp at hsel
    · simp only [Except.ok.injEq] at hsel
      rw [hsel]
    · simp at hsel

theorem selectAsset_regex_semantics_witness :
    selectAsset [] "(" = .error .invalidPattern :=
  (selectAsset_regex_semantics [] "(").1 (by decide)

/-- C5: for all asset lists and patterns, `selectAsset` never returns an
asset whose name ends, case-insensitively, in one of the checksum/signature
suffixes (`.sha256`, `.sha1`, `.sha512`, `.sha256sum`, `.md5`, `.md5sum`,
`.checksums.txt`), even when the pattern would otherwise match it (spec §4.1,
§8; modelled from the spec, the current implementation being absent from the
corpus). -/
theorem selectAsset_never_checksum (assets : List Asset) (pattern : String)
    (a : Asset) (h : selectAsset assets pattern = .ok a) :
    isChecksumAsset a.name = false ∧
    ∀ suf ∈ checksumSuffixes, strEndsWith (strLower a.name) suf = false := by
  rcases hcp : compile pattern with _ | re
  · simp only [selectAsset, hcp] at h
    exact absurd h (by simp)
  · simp only [selectAsset, hcp] at h
    rcases hc : selectCandidates assets re with _ | ⟨x, _ | ⟨y, rest⟩⟩ <;>
      rw [hc] at h
    · simp at h
    · simp only [Except.ok.injEq] at h
      have hmem : a ∈ selectCandidates assets re := by
        rw [hc]
        exact List.mem_singleton.mpr h.symm
      rw [selectCandidates, List.mem_filter] at hmem
      have hpred := hmem.2
      rw [Bool.and_eq_true, Bool.not_eq_true'] at hpred
      refine ⟨hpred.1, fun suf hs => ?_⟩
      have hall : isChecksumAsset a.name = false := hpred.1
      rw [isChecksumAsset] at hall
      have hns := List.any_eq_false.mp hall suf hs
      exact Bool.eq_false_iff.mpr hns
    · simp at h

theorem selectAsset_never_checksum_witness :
    isChecksumAsset "tool-linux.tar.gz" = false ∧
    ∀ suf ∈ checksumSuffixes,
      strEndsWith (strLower "tool-linux.tar.gz") suf = false :=
  selectAsset_never_checksum
    [⟨"tool-linux.tar.gz", 1, ""⟩, ⟨"tool-linux.tar.gz.sha256", 2, ""⟩]
    "linux" ⟨"tool-linux.tar.gz", 1, ""⟩ (by rfl)

/-- C6: for an asset name ending in neither `.tar.gz` nor `.zip`, extraction
takes the raw-binary path (`unnamed/part_006:135-174`): any binaries list of
length other than one fails with the invalid-binary-count error; a single
declared binary makes the downloaded bytes be written verbatim to
`destinationDir` joined with the rename target (or the binary name when no
rename is set) with permissions `0o755`, whose owner-executable bit (bit 6)
is set, and the processed kind is reported as `RawBinary` (kind reporting
modelled from the spec, §4.4). -/
theorem extractFiles_raw_binary_path
    (parseTarGz parseZip : List Nat → Except String (List Entry))
    (rawData : List Nat) (assetName : String) (binaries : List Binary)
    (outputPath : String)
    (h1 : strEndsWith assetName ".tar.gz" = false)
    (h2 : strEndsWith assetName ".zip" = false) :
    (binaries.length ≠ 1 →
      extractFilesKind parseTarGz parseZip rawData assetName binaries
          outputPath =
        .error "invalid number of binaries provided. Non-archive type assets can only be one binary" ∧
      extractFiles parseTarGz parseZip rawData assetName binaries outputPath =
        .error "invalid number of binaries provided. Non-archive type assets can only be one binary") ∧
    (∀ b, binaries = [b] →
      extractFilesKind parseTarGz parseZip rawData assetName binaries
          outputPath =
        .ok (.RawBinary,
          [⟨joinPath outputPath (if b.renameTo ≠ "" then b.renameTo else b.name),
            rawData, 0o755⟩])) ∧
    Nat.testBit 0o755 6 = true := by
  refine ⟨fun h => ⟨?_, ?_⟩, fun b hb => ?_, by decide⟩
  · simp [extractFilesKind, h1, h2, extractFilesRaw, h]
  · simp [extractFiles, h1, h2, extractFilesRaw, h]
  · subst hb
    simp [extractFilesKind, h1, h2, extractFilesRaw]

theorem extractFiles_raw_binary_path_witness :
    extractFilesKind (fun _ => .error "gz") (fun _ => .error "zip")
        [9, 9] "foo-linux" [⟨"foo-linux", "foo"⟩] "dir"
      = .ok (.RawBinary, [⟨"dir/foo", [9, 9], 0o755⟩]) :=
  (extractFiles_raw_binary_path (fun _ => .error "gz") (fun _ => .error "zip")
    [9, 9] "foo-linux" [⟨"foo-linux", "foo"⟩] "dir" (by decide)
    (by decide)).2.1 ⟨"foo-linux", "foo"⟩ rfl

/-- C7 (amended): the tar.gz and zip extraction walks
(`unnamed/part_006:83-133` and `39-81`, both over the entry loop) skip every
entry ending in `/`, stop early as soon as the COUNT of written entries
reaches the number of declared binaries - which need not mean that every
declared binary has been written, see the counterexample - never examining
later entries, and return success after a successful decode even when some
declared binaries are never found in the archive. -/
theorem extract_walk_skip_stop_lenient
    (binaries : List Binary) (outputPath : String) :
    (∀ (e : Entry) rest extracted toExtract, strEndsWith e.name "/" = true →
      extractLoop binaries outputPath toExtract (e :: rest) extracted =
        extractLoop binaries outputPath toExtract rest extracted) ∧
    (∀ (e : Entry) rest rest2 extracted toExtract,
      getRenameTarget e.name binaries ≠ "" → extracted + 1 = toExtract →
      extractLoop binaries outputPath toExtract (e :: rest) extracted =
        extractLoop binaries outputPath toExtract (e :: rest2) extracted) ∧
    (∀ parse rawData entries, parse rawData = .ok entries →
      extractFilesTarGz parse rawData binaries outputPath =
        .ok (extractLoop binaries outputPath binaries.length entries 0) ∧
      extractFilesZip parse rawData binaries outputPath =
        .ok (extractLoop binaries outputPath binaries.length entries 0)) := by
  refine ⟨fun e rest extracted toExtract h => ?_,
          fun e rest rest2 extracted toExtract h hcount => ?_,
          fun parse rawData entries hparse => ?_⟩
  · simp [extractLoop, getRenameTarget, h]
  · simp [extractLoop, h, hcount]
  · exact ⟨by simp [extractFilesTarGz, hparse], by simp [extractFilesZip, hparse]⟩

theorem extract_walk_skip_stop_lenient_witness :
    extractLoop [⟨"rg", "ripgrep"⟩] "d" 1 [⟨"bin/", [0]⟩, ⟨"bin/rg", [2]⟩] 0
      = extractLoop [⟨"rg", "ripgrep"⟩] "d" 1 [⟨"bin/rg", [2]⟩] 0 :=
  (extract_walk_skip_stop_lenient [⟨"rg", "ripgrep"⟩] "d").1
    ⟨"bin/", [0]⟩ [⟨"bin/rg", [2]⟩] 0 1 (by decide)

/-- C7 counterexample: binaries `a`, `b` and archive entries `a`, `a`, `b`.
The loop writes the entry `a` twice, reaches the stop count, and terminates
without ever writing the declared binary `b` even though a matching entry for
`b` remains in the archive - refuting "stops early as soon as every declared
binary has been written". -/
theorem extractLoop_stop_count_counterexample :
    extractLoop [⟨"a", ""⟩, ⟨"b", ""⟩] "d" 2
        [⟨"a", [1]⟩, ⟨"a", [2]⟩, ⟨"b", [3]⟩] 0
      = [⟨"d/a", [1], 0o755⟩, ⟨"d/a", [2], 0o755⟩] ∧
    "d/b" ∉ (extractLoop [⟨"a", ""⟩, ⟨"b", ""⟩] "d" 2
        [⟨"a", [1]⟩, ⟨"a", [2]⟩, ⟨"b", [3]⟩] 0).map FsWrite.path := by
  exact ⟨by decide, by decide⟩

theorem getRenameTarget_spec (n : String) (binaries : List Binary)
    (h : getRenameTarget n binaries ≠ "") :
    ∃ b ∈ binaries, getRenameTarget n binaries =
      (if b.renameTo ≠ "" then b.renameTo else b.name) := by
  by_cases hs : strEndsWith n "/"
  · exact absurd (by simp [getRenameTarget, hs]) h
  · rcases hf : binaries.find? (fun binary => pathBase n = binary.name) with _ | b
    · exact absurd (by simp [getRenameTarget, hs, hf]) h
    · refine ⟨b, List.mem_of_find?_eq_some hf, ?_⟩
      have hpb : pathBase n = b.name := by
        simpa using List.find?_some hf
      by_cases hr : b.renameTo ≠ ""
      · simp [getRenameTarget, hs, hf, hr]
      · simp only [ne_eq, not_not] at hr
        have hgoal : getRenameTarget n binaries = pathBase n := by
          simp [getRenameTarget, hs, hf, hr]
        rw [hgoal, hpb]
        simp [hr]

theorem extractLoop_path_mem (binaries : List Binary) (outputPath : String) :
    ∀ (entries : List Entry) (toExtract extracted : Nat) (w : FsWrite),
      w ∈ extractLoop binaries outputPath toExtract entries extracted →
      ∃ b ∈ binaries, w.path =
        joinPath outputPath (if b.renameTo ≠ "" then b.renameTo else b.name) := by
  intro entries
  induction entries with
  | nil =>
    intro toExtract extracted w hw
    simp [extractLoop] at hw
  | cons e rest ih =>
    intro toExtract extracted w hw
    simp only [extractLoop] at hw
    by_cases hf : getRenameTarget e.name binaries = ""
    · rw [if_pos hf] at hw
      exact ih toExtract extracted w hw
    · rw [if_neg hf] at hw
      obtain ⟨b, hb, hbe⟩ := getRenameTarget_spec e.name binaries hf
      by_cases hc : extracted + 1 = toExtract
      · rw [if_pos hc, List.mem_singleton] at hw
        subst hw
        exact ⟨b, hb, by simp [hbe]⟩
      · rw [if_neg hc] at hw
        rcases List.mem_cons.mp hw with hw | hw
        · subst hw
          exact ⟨b, hb, by simp [hbe]⟩
        · exact ih toExtract (extracted + 1) w hw

/-- C10: every file written by the tar.gz or zip walk
(`unnamed/part_006:39-133`) lands at exactly the installation directory
joined with the matched binary's rename target (or its name, which on a match
equals the entry's base filename); the path is a function of the configured
binaries alone, so no archive entry's directory components can place a
matched file outside the installation directory, and `getRenameTarget`
depends on the entry name only through its directory-marker status and base
filename. -/
theorem extract_write_location_config_only
    (binaries : List Binary) (outputPath : String) :
    (∀ parse rawData ws,
      extractFilesTarGz parse rawData binaries outputPath = .ok ws →
      ∀ w ∈ ws, ∃ b ∈ binaries, w.path =
        joinPath outputPath (if b.renameTo ≠ "" then b.renameTo else b.name)) ∧
    (∀ parse rawData ws,
      extractFilesZip parse rawData binaries outputPath = .ok ws →
      ∀ w ∈ ws, ∃ b ∈ binaries, w.path =
        joinPath outputPath (if b.renameTo ≠ "" then b.renameTo else b.name)) ∧
    (∀ n n2, strEndsWith n "/" = strEndsWith n2 "/" → pathBase n = pathBase n2 →
      getRenameTarget n binaries = getRenameTarget n2 binaries) := by
  refine ⟨fun parse rawData ws hok w hw => ?_,
          fun parse rawData ws hok w hw => ?_, fun n n2 hs hb => ?_⟩
  · rcases hp : parse rawData with e | entries <;>
      simp only [extractFilesTarGz, hp] at hok
    · simp at hok
    · simp only [Except.ok.injEq] at hok
      subst hok
      exact extractLoop_path_mem binaries outputPath entries binaries.length 0 w hw
  · rcases hp : parse rawData with e | entries <;>
      simp only [extractFilesZip, hp] at hok
    · simp at hok
    · simp only [Except.ok.injEq] at hok
      subst hok
      exact extractLoop_path_mem binaries outputPath entries binaries.length 0 w hw
  · simp only [getRenameTarget]
    rw [hs, hb]

theorem extract_write_location_config_only_witness :
    ∃ b ∈ [(⟨"rg", "ripgrep"⟩ : Binary)],
      FsWrite.path ⟨"d/ripgrep", [2], 0o755⟩ =
        joinPath "d" (if b.renameTo ≠ "" then b.renameTo else b.name) :=
  (extract_write_location_config_only [⟨"rg", "ripgrep"⟩] "d").1
    (fun _ => .ok [⟨"bin/rg", [2]⟩]) [] [⟨"d/ripgrep", [2], 0o755⟩] (by rfl)
    ⟨"d/ripgrep", [2], 0o755⟩ (by decide)

theorem filter_isCacheWrite_trace (outcomes : List (String × ToolOutcome))
    (c : List (String × String)) :
    ((outcomes.map (fun no => BatchEvent.toolProcessed no.1 no.2)
        ++ [BatchEvent.cacheWrite c]).filter isCacheWrite)
      = [BatchEvent.cacheWrite c] := by
  rw [List.filter_append]
  have hA : (outcomes.map
      (fun no => BatchEvent.toolProcessed no.1 no.2)).filter isCacheWrite
      = [] := by
    rw [List.filter_eq_nil_iff]
    rintro e he
    obtain ⟨no, _, rfl⟩ := List.mem_map.mp he
    simp [isCacheWrite]
  rw [hA]
  simp [isCacheWrite, List.filter]

/-- C8: the event trace of a batch install is all per-tool events followed by
a single cache write of the final mapping - the only cache write in the
trace, occurring after all per-tool work; the final cache maps every
successfully installed tool name to its installed tag and agrees with the
starting cache at every other name
(`cmd/tool-installer/commands.go:226-272`). -/
theorem installTools_single_cache_write (goos : String)
    (dr : String → String → Except String Release)
    (da : String → Except String (List Nat))
    (pt pz : List Nat → Except String (List Entry))
    (cacheTools : List (String × String)) (dir : String)
    (toInstall : List (String × Tool))
    (hnd : (toInstall.map Prod.fst).Nodup) :
    (installTools goos dr da pt pz cacheTools dir toInstall).1
      = (batchOutcomes goos dr da pt pz cacheTools dir toInstall).map
          (fun no => BatchEvent.toolProcessed no.1 no.2)
        ++ [BatchEvent.cacheWrite
              (installTools goos dr da pt pz cacheTools dir toInstall).2] ∧
    ((installTools goos dr da pt pz cacheTools dir toInstall).1.filter
        isCacheWrite)
      = [BatchEvent.cacheWrite
          (installTools goos dr da pt pz cacheTools dir toInstall).2] ∧
    (∀ k v w,
      (k, ToolOutcome.installed v w)
          ∈ batchOutcomes goos dr da pt pz cacheTools dir toInstall →
      lookupOpt (installTools goos dr da pt pz cacheTools dir toInstall).2 k
        = some v) ∧
    (∀ k,
      (∀ v w, (k, ToolOutcome.installed v w)
          ∉ batchOutcomes goos dr da pt pz cacheTools dir toInstall) →
      lookupOpt (installTools goos dr da pt pz cacheTools dir toInstall).2 k
        = lookupOpt cacheTools k) := by
  have hnd2 : ((successResults (batchOutcomes goos dr da pt pz cacheTools dir
      toInstall)).map Prod.fst).Nodup := by
    have hs := successResults_names_sublist
      (batchOutcomes goos dr da pt pz cacheTools dir toInstall)
    rw [batchOutcomes_names] at hs
    exact hnd.sublist hs
  refine ⟨rfl, ?_, ?_, ?_⟩
  · exact filter_isCacheWrite_trace _ _
  · intro k v w hmem
    exact lookupOpt_mergeCache_mem _ k v hnd2
      ((mem_successResults _ k v).mpr ⟨w, hmem⟩) cacheTools
  · intro k hk
    refine lookupOpt_mergeCache_not_mem _ k ?_ cacheTools
    rintro ⟨n, v⟩ hr heq
    simp only at heq
    subst heq
    obtain ⟨w, hw⟩ := (mem_successResults _ n v).mp hr
    exact hk v w hw

theorem installTools_single_cache_write_witness :
    lookupOpt (installTools "linux" (fun _ _ => Except.ok ⟨"v1", []⟩)
        (fun _ => .error "net") (fun _ => .error "gz") (fun _ => .error "zip")
        [("rg", "v0")] "d" [("bat", ⟨[], "o", "r", "", "", "", ""⟩)]).2 "rg"
      = lookupOpt [("rg", "v0")] "rg" :=
  (installTools_single_cache_write "linux" (fun _ _ => Except.ok ⟨"v1", []⟩)
    (fun _ => .error "net") (fun _ => .error "gz") (fun _ => .error "zip")
    [("rg", "v0")] "d" [("bat", ⟨[], "o", "r", "", "", "", ""⟩)]
    (by simp)).2.2.2 "rg"
    (by intro v w hmem; simp [batchOutcomes] at hmem)

/-- C9: when one tool's unit fails, the failure is exactly that tool's
terminal outcome; the batch without the failing tool produces the same
outcomes for every other tool, and the final cache agrees at every other
name - a single failure never short-circuits the batch
(`cmd/tool-installer/commands.go:230-262`,
`cmd/tool-installer/application.go:207-244`). -/
theorem installTools_failure_isolation (goos : String)
    (dr : String → String → Except String Release)
    (da : String → Except String (List Nat))
    (pt pz : List Nat → Except String (List Entry))
    (cacheTools : List (String × String)) (dir : String)
    (toInstall : List (String × Tool)) (k : String) (toolK : Tool)
    (msg : String)
    (hnd : (toInstall.map Prod.fst).Nodup)
    (hkmem : (k, toolK) ∈ toInstall)
    (hkfail : installUnit goos dr da pt pz cacheTools dir k toolK =
      .failed msg) :
    (k, ToolOutcome.failed msg)
        ∈ batchOutcomes goos dr da pt pz cacheTools dir toInstall ∧
    batchOutcomes goos dr da pt pz cacheTools dir
        (toInstall.filter (fun nt => nt.1 ≠ k))
      = (batchOutcomes goos dr da pt pz cacheTools dir toInstall).filter
          (fun no => no.1 ≠ k) ∧
    (∀ j, j ≠ k →
      lookupOpt (installTools goos dr da pt pz cacheTools dir toInstall).2 j
        = lookupOpt (installTools goos dr da pt pz cacheTools dir
            (toInstall.filter (fun nt => nt.1 ≠ k))).2 j) := by
  have hconj2 : batchOutcomes goos dr da pt pz cacheTools dir
        (toInstall.filter (fun nt => nt.1 ≠ k))
      = (batchOutcomes goos dr da pt pz cacheTools dir toInstall).filter
          (fun no => no.1 ≠ k) := by
    rw [batchOutcomes, batchOutcomes, List.filter_map]
    rfl
  refine ⟨?_, hconj2, ?_⟩
  · have hm := List.mem_map_of_mem
      (fun nt : String × Tool =>
        (nt.1, installUnit goos dr da pt pz cacheTools dir nt.1 nt.2)) hkmem
    rw [batchOutcomes]
    simpa [hkfail] using hm
  · intro j hj
    have hkey : ∀ (outs : List (String × ToolOutcome)),
        (∀ v w, (j, ToolOutcome.installed v w) ∉ outs) →
        ∀ r ∈ successResults outs, r.1 ≠ j := by
      rintro outs hno ⟨n, v⟩ hr heq
      simp only at heq
      subst heq
      obtain ⟨w, hw⟩ := (mem_successResults outs n v).mp hr
      exact hno v w hw
    by_cases hc : ∃ v w, (j, ToolOutcome.installed v w)
        ∈ batchOutcomes goos dr da pt pz cacheTools dir toInstall
    · obtain ⟨v, w, hvw⟩ := hc
      have hndfull : ((successResults (batchOutcomes goos dr da pt pz
          cacheTools dir toInstall)).map Prod.fst).Nodup := by
        have hs := successResults_names_sublist
          (batchOutcomes goos dr da pt pz cacheTools dir toInstall)
        rw [batchOutcomes_names] at hs
        exact hnd.sublist hs
      have hndpruned : ((successResults (batchOutcomes goos dr da pt pz
          cacheTools dir (toInstall.filter (fun nt => nt.1 ≠ k)))).map
            Prod.fst).Nodup := by
        have hs := successResults_names_sublist
          (batchOutcomes goos dr da pt pz cacheTools dir
            (toInstall.filter (fun nt => nt.1 ≠ k)))
        rw [batchOutcomes_names] at hs
        refine (hnd.sublist ?_).sublist hs
        exact (List.filter_sublist toInstall).map Prod.fst
      have hvw2 : (j, ToolOutcome.installed v w)
          ∈ batchOutcomes goos dr da pt pz cacheTools dir
              (toInstall.filter (fun nt => nt.1 ≠ k)) := by
        rw [hconj2, List.mem_filter]
        exact ⟨hvw, by simp [hj]⟩
      have h1 := lookupOpt_mergeCache_mem _ j v hndfull
        ((mem_successResults _ j v).mpr ⟨w, hvw⟩) cacheTools
      have h2 := lookupOpt_mergeCache_mem _ j v hndpruned
        ((mem_successResults _ j v).mpr ⟨w, hvw2⟩) cacheTools
      exact h1.trans h2.symm
    · push_neg at hc
      have hc2 : ∀ v w, (j, ToolOutcome.installed v w)
          ∉ batchOutcomes goos dr da pt pz cacheTools dir
              (toInstall.filter (fun nt => nt.1 ≠ k)) := by
        intro v w hmem
        rw [hconj2, List.mem_filter] at hmem
        exact hc v w hmem.1
      have h1 := lookupOpt_mergeCache_not_mem _ j (hkey _ hc) cacheTools
      have h2 := lookupOpt_mergeCache_not_mem _ j (hkey _ hc2) cacheTools
      exact h1.trans h2.symm

theorem installTools_failure_isolation_witness :
    ("bad", ToolOutcome.failed "net")
      ∈ batchOutcomes "linux" (fun _ _ => .error "net") (fun _ => .error "x")
          (fun _ => .error "gz") (fun _ => .error "zip") [] "d"
          [("bad", ⟨[], "o", "r", "l", "", "", ""⟩)] :=
  (installTools_failure_isolation "linux" (fun _ _ => .error "net")
    (fun _ => .error "x") (fun _ => .error "gz") (fun _ => .error "zip")
    [] "d" [("bad", ⟨[], "o", "r", "l", "", "", ""⟩)] "bad"
    ⟨[], "o", "r", "l", "", "", ""⟩ "net" (by simp)
    (List.mem_singleton.mpr rfl) (by rfl)).1
